import Mathlib

/-!
Verification of the member join-position reconciliation and habit-leaderboard
logic of the "The-System" Discord community bot.

The development shallowly embeds the relevant Python source:
* `src/database.py` — `MongoDatabaseManager`: `add_member`, `update_member`,
  `increment_habit`, `calculate_join_position`;
* `src/cogs/debug.py` — `DebugCog._perform_sync` (member reconciliation) and
  `DebugCog.fix_member_data` (full rebuild preserving habit data);
* `src/cogs/player.py` — `generate_leaderboard_embed` (ranking and pagination).

Modelling conventions:
* UTC timestamps are natural numbers of seconds since the epoch; the UTC
  calendar date of a timestamp is its floor-quotient by 86400.  The source's
  naive-datetime branches (`last.replace(tzinfo=timezone.utc)`) are identity
  under this encoding.
* The Mongo `members` collection is a list of documents in insertion order.
  `find_one` is `List.find?`, `update_one` rewrites the first matching
  document, `insert_one` appends, `delete_many`/`find`-with-filter are
  `List.filter`.
* Documents inserted by `_perform_sync` carry no `habit_count`/`last_increment`
  fields; since every read uses `.get(..., 0)` / `.get(...)` defaults and
  `$inc` treats a missing field as 0, a missing field is observationally equal
  to `0` / `null`, and the embedding stores those defaults.
* Python's `sorted` is a stable sort; it is modelled by `List.insertionSort`
  on the sort key, which is stable and sorted with respect to the key order.
-/

namespace TheSystem

/-- UTC timestamps, in whole seconds since the epoch. -/
abbrev Timestamp := Nat

/-- UTC calendar date of a timestamp (day number since the epoch);
`datetime.date()` comparison of two UTC instants is equality of `dateOf`. -/
def dateOf (t : Timestamp) : Nat := t / 86400

/-- A live guild member as delivered by the chat platform (discord.Member):
`username` is the string form `str(member)`, `joinedAt` may be unknown. -/
structure Member where
  id : Nat
  username : String
  displayName : String
  joinedAt : Option Timestamp
  bot : Bool
deriving DecidableEq, Repr

/-- A stored member document of the `members` collection. -/
structure MemberRecord where
  userId : Nat
  guildId : Nat
  username : String
  displayName : String
  joinedAt : Timestamp
  joinPosition : Nat
  isBot : Bool
  habitCount : Nat
  lastIncrement : Option Timestamp
  lastActive : Option Timestamp
  createdAt : Timestamp
  updatedAt : Timestamp
deriving DecidableEq, Repr

/-- The Mongo filter `{"user_id": uid, "guild_id": gid}`. -/
def matchKey (uid gid : Nat) (r : MemberRecord) : Bool :=
  r.userId == uid && r.guildId == gid

/-- Mongo `update_one`: apply `f` to the first document matching `p`,
leaving every other document unchanged. -/
def updateFirst (p : MemberRecord → Bool) (f : MemberRecord → MemberRecord) :
    List MemberRecord → List MemberRecord
  | [] => []
  | r :: rs => if p r then f r :: rs else r :: updateFirst p f rs

/-- `MongoDatabaseManager.calculate_join_position` (database.py:130-136):
count the guild's non-bot documents with a strictly earlier `joined_at`,
plus one. -/
def calculateJoinPosition (store : List MemberRecord) (gid : Nat)
    (joinedAt : Timestamp) : Nat :=
  (store.filter (fun r =>
    r.guildId == gid && decide (r.joinedAt < joinedAt) && !r.isBot)).length + 1

/-- `MongoDatabaseManager.add_member` (database.py:56-74): an upsert keyed on
`(user_id, guild_id)` that `$set`s every profile field, a freshly computed
`join_position`, `habit_count = 0` and `last_increment = null`, with
`created_at` only set on insert.  Returns the computed join position together
with the new collection state. -/
def addMember (store : List MemberRecord) (uid gid : Nat)
    (username displayName : String) (joinedAt : Timestamp) (isBot : Bool)
    (now : Timestamp) : Nat × List MemberRecord :=
  let jp := calculateJoinPosition store gid joinedAt
  let setFields : MemberRecord → MemberRecord := fun r =>
    { r with username := username, displayName := displayName,
             joinedAt := joinedAt, joinPosition := jp, isBot := isBot,
             habitCount := 0, lastIncrement := none, lastActive := some now,
             updatedAt := now }
  if (store.find? (matchKey uid gid)).isSome then
    (jp, updateFirst (matchKey uid gid) setFields store)
  else
    (jp, store ++ [{ userId := uid, guildId := gid, username := username,
                     displayName := displayName, joinedAt := joinedAt,
                     joinPosition := jp, isBot := isBot, habitCount := 0,
                     lastIncrement := none, lastActive := some now,
                     createdAt := now, updatedAt := now }])

/-- One keyword argument passed to `update_member`, tagged by the Python
keyword it is passed under. -/
inductive FieldAssign where
  | username (v : String)
  | displayName (v : String)
  | lastActive (v : Timestamp)
  | lastIncrement (v : Option Timestamp)
  | habitCount (v : Nat)
  | joinPosition (v : Nat)
  | joinedAt (v : Timestamp)
  | isBot (v : Bool)
deriving DecidableEq, Repr

/-- The Python keyword string under which each argument travels. -/
def fieldKey : FieldAssign → String
  | .username _ => "username"
  | .displayName _ => "display_name"
  | .lastActive _ => "last_active"
  | .lastIncrement _ => "last_increment"
  | .habitCount _ => "habit_count"
  | .joinPosition _ => "join_position"
  | .joinedAt _ => "joined_at"
  | .isBot _ => "is_bot"

/-- Writing one keyword argument into a document (`$set` of that field). -/
def applyField (r : MemberRecord) : FieldAssign → MemberRecord
  | .username v => { r with username := v }
  | .displayName v => { r with displayName := v }
  | .lastActive v => { r with lastActive := some v }
  | .lastIncrement v => { r with lastIncrement := v }
  | .habitCount v => { r with habitCount := v }
  | .joinPosition v => { r with joinPosition := v }
  | .joinedAt v => { r with joinedAt := v }
  | .isBot v => { r with isBot := v }

/-- `allowed_fields` of `update_member` (database.py:81). -/
def allowedFields : List String :=
  ["username", "display_name", "last_active", "last_increment"]

/-- `MongoDatabaseManager.update_member` (database.py:80-88): keep only the
allowed keyword arguments; if any survive, `$set` them plus `updated_at` on
the first matching document, otherwise perform no write at all. -/
def updateMember (store : List MemberRecord) (uid gid : Nat)
    (kwargs : List FieldAssign) (now : Timestamp) : List MemberRecord :=
  let updates := kwargs.filter (fun f => allowedFields.contains (fieldKey f))
  if updates.isEmpty then store
  else
    updateFirst (matchKey uid gid)
      (fun r => { updates.foldl applyField r with updatedAt := now }) store

/-- Outcome of `increment_habit`.  `attrError` models the `AttributeError`
raised by `user.get(...)` when `get_member` returned `None`. -/
inductive IncOutcome where
  | incremented
  | alreadyIncremented
  | attrError
deriving DecidableEq, Repr

/-- The cooldown test of `increment_habit` (database.py:96-102): pass when
`last_increment` is null or its UTC calendar date differs from today's. -/
def incrementGate (user : MemberRecord) (now : Timestamp) : Bool :=
  match user.lastIncrement with
  | none => true
  | some last => !(dateOf last == dateOf now)

/-- The write of `increment_habit` (database.py:104-113): an `update_one`
filtered on the ids only — it carries no condition on `last_increment` —
that `$inc`s `habit_count` and `$set`s `last_increment`/`updated_at`. -/
def incrementWrite (store : List MemberRecord) (uid gid : Nat)
    (now : Timestamp) : List MemberRecord :=
  updateFirst (matchKey uid gid)
    (fun r => { r with habitCount := r.habitCount + 1,
                       lastIncrement := some now, updatedAt := now }) store

/-- The body of `increment_habit` after its application-level read, taking the
fetched document (possibly stale) and the current collection state. -/
def incrementResume (fetched : Option MemberRecord) (store : List MemberRecord)
    (uid gid : Nat) (now : Timestamp) : IncOutcome × List MemberRecord :=
  match fetched with
  | none => (.attrError, store)
  | some user =>
    if incrementGate user now then (.incremented, incrementWrite store uid gid now)
    else (.alreadyIncremented, store)

/-- `MongoDatabaseManager.increment_habit` (database.py:90-114): a
`get_member` read followed by the gate and the unconditional write. -/
def incrementHabit (store : List MemberRecord) (uid gid : Nat)
    (now : Timestamp) : IncOutcome × List MemberRecord :=
  incrementResume (store.find? (matchKey uid gid)) store uid gid now

/-- Two overlapping `increment_habit` invocations for the same key, scheduled
so that both application-level reads complete before either write is applied
(each read/write is one awaited round trip to the store, so this interleaving
is admitted by the event loop). -/
def incrementRace (store : List MemberRecord) (uid gid : Nat)
    (now1 now2 : Timestamp) : IncOutcome × IncOutcome × List MemberRecord :=
  let fetched1 := store.find? (matchKey uid gid)
  let fetched2 := store.find? (matchKey uid gid)
  let step1 := incrementResume fetched1 store uid gid now1
  let step2 := incrementResume fetched2 step1.2 uid gid now2
  (step1.1, step2.1, step2.2)

/-- The sort key of both sorts in `_perform_sync` and `fix_member_data`:
`member.joined_at or datetime.utcnow()` — an unknown join timestamp sorts
as "now". -/
def sortKey (now : Timestamp) (m : Member) : Timestamp := m.joinedAt.getD now

/-- Python's stable `sorted(..., key=lambda m: m.joined_at or now)`,
modelled by the stable `List.insertionSort` on the key order. -/
def sortMembers (now : Timestamp) (l : List Member) : List Member :=
  l.insertionSort (fun a b => sortKey now a ≤ sortKey now b)

/-- The ordering shared by `_perform_sync` (debug.py:408-419) and
`fix_member_data` (debug.py:211-221): humans sorted by join date, then bots
sorted by join date. -/
def computeOrdering (now : Timestamp) (members : List Member) : List Member :=
  sortMembers now (members.filter (fun m => !m.bot)) ++
    sortMembers now (members.filter (fun m => m.bot))

/-- The update branch of `_perform_sync` (debug.py:434-445): `$set` only
`username`, `display_name`, `is_bot` and `updated_at`. -/
def syncUpdate (now : Timestamp) (m : Member) (r : MemberRecord) : MemberRecord :=
  { r with username := m.username, displayName := m.displayName,
           isBot := m.bot, updatedAt := now }

/-- The join position computed in the insert branch of `_perform_sync`
(debug.py:448-450): `len(humans) + 1` for a bot, else one plus the number of
non-bot members among `ordered_members[:i]` (here `pre`). -/
def syncPos (h : Nat) (pre : List Member) (m : Member) : Nat :=
  if m.bot then h + 1 else (pre.filter (fun x => !x.bot)).length + 1

/-- The document inserted by `_perform_sync` (debug.py:452-462). The source
document carries no `habit_count`/`last_increment`/`last_active` fields; the
observationally equal defaults are stored (see the module comment). -/
def syncInsertDoc (gid : Nat) (now : Timestamp) (pos : Nat) (m : Member) :
    MemberRecord :=
  { userId := m.id, guildId := gid, username := m.username,
    displayName := m.displayName, joinedAt := sortKey now m,
    joinPosition := pos, isBot := m.bot, habitCount := 0,
    lastIncrement := none, lastActive := none, createdAt := now,
    updatedAt := now }

/-- Result of a `_perform_sync` run: the collection state and the reported
`added`/`updated` counters. -/
structure SyncResult where
  store : List MemberRecord
  added : Nat
  updated : Nat
deriving DecidableEq, Repr

/-- The member loop of `_perform_sync` (debug.py:427-463): `pre` is the
processed prefix `ordered_members[:i]`, `h` is `len(humans)`. -/
def syncLoop (gid : Nat) (now : Timestamp) (h : Nat) :
    List Member → List Member → List MemberRecord → Nat → Nat → SyncResult
  | _, [], store, added, updated => ⟨store, added, updated⟩
  | pre, m :: ms, store, added, updated =>
    if (store.find? (matchKey m.id gid)).isSome then
      syncLoop gid now h (pre ++ [m]) ms
        (updateFirst (matchKey m.id gid) (syncUpdate now m) store)
        added (updated + 1)
    else
      syncLoop gid now h (pre ++ [m]) ms
        (store ++ [syncInsertDoc gid now (syncPos h pre m) m])
        (added + 1) updated

/-- `DebugCog._perform_sync` (debug.py:404-463): sort humans and bots by join
date, concatenate humans first, then reconcile each member against the
collection, updating existing documents and inserting missing ones. -/
def performSync (gid : Nat) (now : Timestamp) (members : List Member)
    (store : List MemberRecord) : SyncResult :=
  syncLoop gid now (sortMembers now (members.filter (fun m => !m.bot))).length
    [] (computeOrdering now members) store 0 0

/-- The `existing_habit_data` snapshot of `fix_member_data`
(debug.py:197-206): a dict keyed by `user_id` built in collection order (so a
later document wins), skipping falsy (zero) user ids; the stored values are
`habit_count` (default 0) and `last_increment`. -/
def habitSnapshot (store : List MemberRecord) (gid uid : Nat) :
    Option (Nat × Option Timestamp) :=
  if uid = 0 then none
  else
    ((store.filter (fun r => r.guildId == gid)).reverse.find?
      (fun r => r.userId == uid)).map (fun r => (r.habitCount, r.lastIncrement))

/-- One document inserted by the rebuild loop of `fix_member_data`
(debug.py:224-242), at 1-based `pos`, carrying the preserved habit data
(`preserved_data.get("habit_count", 0)` / `preserved_data.get("last_increment")`). -/
def rebuildDoc (gid : Nat) (now : Timestamp)
    (snap : Nat → Option (Nat × Option Timestamp)) (pos : Nat) (m : Member) :
    MemberRecord :=
  { userId := m.id, guildId := gid, username := m.username,
    displayName := m.displayName, joinedAt := sortKey now m,
    joinPosition := pos, isBot := m.bot,
    habitCount := ((snap m.id).map Prod.fst).getD 0,
    lastIncrement := ((snap m.id).map Prod.snd).getD none,
    lastActive := none, createdAt := now, updatedAt := now }

/-- The insert loop `for position, member in enumerate(all_members, 1)` of
`fix_member_data` (debug.py:224-242). -/
def rebuildDocs (gid : Nat) (now : Timestamp)
    (snap : Nat → Option (Nat × Option Timestamp)) :
    Nat → List Member → List MemberRecord
  | _, [] => []
  | pos, m :: ms => rebuildDoc gid now snap pos m :: rebuildDocs gid now snap (pos + 1) ms

/-- `DebugCog.fix_member_data`, core rebuild (debug.py:192-242): snapshot the
guild's habit data, delete the guild's documents, then insert one document
per live member in `computeOrdering` order with 1-based positions. -/
def fixMemberData (store : List MemberRecord) (gid : Nat) (now : Timestamp)
    (members : List Member) : List MemberRecord :=
  store.filter (fun r => !(r.guildId == gid)) ++
    rebuildDocs gid now (habitSnapshot store gid) 1 (computeOrdering now members)

/-- The ranking read shared by `generate_leaderboard_embed` and
`ProfileButton.callback` (player.py:289-293, 28-31): the guild's documents
with `habit_count >= 1`, sorted descending on `habit_count` (stable on
collection order, modelled by the stable insertion sort). -/
def rankedMembers (store : List MemberRecord) (gid : Nat) : List MemberRecord :=
  (store.filter (fun r => r.guildId == gid && decide (1 ≤ r.habitCount))).insertionSort
    (fun a b => b.habitCount ≤ a.habitCount)

/-- Pair each element with its 1-based position starting at `n`. -/
def enumFrom (n : Nat) : List α → List (Nat × α)
  | [] => []
  | x :: xs => (n, x) :: enumFrom (n + 1) xs

/-- The full rank assignment: 1-based index in the sorted sequence, as
computed by `ProfileButton.callback` (`members.index(user_data) + 1`,
player.py:43) over the whole ranking. -/
def rankAll (store : List MemberRecord) (gid : Nat) : List (Nat × MemberRecord) :=
  enumFrom 1 (rankedMembers store gid)

/-- The page shown by `generate_leaderboard_embed` (player.py:304-323):
`top = all_members[offset:offset + limit]` with displayed ranks
`range(offset + 1, offset + len(top) + 1)`. -/
def pageEntries (store : List MemberRecord) (gid offset limit : Nat) :
    List (Nat × MemberRecord) :=
  let top := ((rankedMembers store gid).drop offset).take limit
  (List.range' (offset + 1) top.length).zip top

/-! ### General lemmas about the collection primitives -/

theorem updateFirst_map_eq {β : Type} (g : MemberRecord → β)
    (p : MemberRecord → Bool) (f : MemberRecord → MemberRecord)
    (hpres : ∀ r, g (f r) = g r) :
    ∀ l : List MemberRecord, (updateFirst p f l).map g = l.map g := by
  intro l
  induction l with
  | nil => rfl
  | cons r rs ih =>
    by_cases h : p r
    · simp [updateFirst, h, hpres]
    · simp [updateFirst, h, ih]

theorem find?_updateFirst (p : MemberRecord → Bool)
    (f : MemberRecord → MemberRecord) (hkey : ∀ r, p (f r) = p r) :
    ∀ l : List MemberRecord, (updateFirst p f l).find? p = (l.find? p).map f := by
  intro l
  induction l with
  | nil => rfl
  | cons r rs ih =>
    by_cases h : p r
    · rw [updateFirst, if_pos h, List.find?_cons_of_pos _ ((hkey r).trans h),
        List.find?_cons_of_pos _ h, Option.map_some']
    · rw [updateFirst, if_neg h, List.find?_cons_of_neg _ h,
        List.find?_cons_of_neg _ h, ih]

theorem find?_isSome_updateFirst (p q : MemberRecord → Bool)
    (f : MemberRecord → MemberRecord) (hq : ∀ r, q (f r) = q r) :
    ∀ l : List MemberRecord,
      ((updateFirst p f l).find? q).isSome = (l.find? q).isSome := by
  intro l
  induction l with
  | nil => rfl
  | cons r rs ih =>
    by_cases hp : p r
    · rw [updateFirst, if_pos hp]
      by_cases hqr : q r
      · rw [List.find?_cons_of_pos _ ((hq r).trans hqr), List.find?_cons_of_pos _ hqr]
        rfl
      · rw [List.find?_cons_of_neg _ (by rw [hq r]; exact hqr),
          List.find?_cons_of_neg _ hqr]
    · rw [updateFirst, if_neg hp]
      by_cases hqr : q r
      · rw [List.find?_cons_of_pos _ hqr, List.find?_cons_of_pos _ hqr]
      · rw [List.find?_cons_of_neg _ hqr, List.find?_cons_of_neg _ hqr, ih]

theorem find?_eq_some_of_unique {α : Type} {p : α → Bool} {l : List α} {a : α}
    (ha : a ∈ l) (hpa : p a = true) (huniq : ∀ x ∈ l, p x = true → x = a) :
    l.find? p = some a := by
  induction l with
  | nil => cases ha
  | cons x xs ih =>
    by_cases hx : p x
    · rw [List.find?_cons_of_pos _ hx, huniq x (List.mem_cons_self x xs) hx]
    · rw [List.find?_cons_of_neg _ hx]
      rcases List.mem_cons.mp ha with rfl | ha'
      · exact absurd hpa hx
      · exact ih ha' (fun y hy hpy => huniq y (List.mem_cons_of_mem x hy) hpy)

/-! ### C9: `increment_habit` requires an existing record -/

/-- C9: for a `(userId, guildId)` pair with no stored document,
`increment_habit` faults — `get_member` returns `None` and `user.get(...)`
raises `AttributeError` (modelled by the `attrError` outcome) — before any
write, so the collection is untouched; conversely a non-faulting call is only
possible when the document exists. -/
theorem incrementHabit_requires_record (store : List MemberRecord)
    (uid gid : Nat) (now : Timestamp) :
    ((incrementHabit store uid gid now).1 = IncOutcome.attrError ↔
      store.find? (matchKey uid gid) = none) ∧
    (store.find? (matchKey uid gid) = none →
      (incrementHabit store uid gid now).2 = store) := by
  unfold incrementHabit incrementResume
  cases hf : store.find? (matchKey uid gid) with
  | none => exact ⟨by simp, fun _ => rfl⟩
  | some user =>
    refine ⟨⟨fun h => ?_, fun h => by cases h⟩, fun h => by cases h⟩
    by_cases hg : incrementGate user now <;> simp [hg] at h

/-- Witness for C9 at the empty collection. -/
theorem incrementHabit_requires_record_witness :
    (incrementHabit [] 1 1 100).1 = IncOutcome.attrError ∧
      (incrementHabit [] 1 1 100).2 = [] :=
  ⟨(incrementHabit_requires_record [] 1 1 100).1.mpr rfl,
   (incrementHabit_requires_record [] 1 1 100).2 rfl⟩

/-! ### C2: the `increment_habit` cooldown gate -/

/-- C2: when the stored `last_increment` falls on the same UTC calendar date
as `now`, `increment_habit` reports `already_incremented` and leaves the
collection (in particular `habit_count`) unchanged; when `last_increment` is
null or falls on an earlier UTC calendar date, it reports `incremented`,
increases the document's `habit_count` by exactly one and sets
`last_increment` to `now`. -/
theorem incrementHabit_cooldown (store : List MemberRecord) (uid gid : Nat)
    (now : Timestamp) (r : MemberRecord)
    (hfind : store.find? (matchKey uid gid) = some r) :
    (∀ last, r.lastIncrement = some last → dateOf last = dateOf now →
      incrementHabit store uid gid now = (IncOutcome.alreadyIncremented, store)) ∧
    ((r.lastIncrement = none ∨
        ∃ last, r.lastIncrement = some last ∧ dateOf last < dateOf now) →
      (incrementHabit store uid gid now).1 = IncOutcome.incremented ∧
      (incrementHabit store uid gid now).2.find? (matchKey uid gid) =
        some { r with habitCount := r.habitCount + 1, lastIncrement := some now,
                      updatedAt := now }) := by
  constructor
  · intro last hlast hdate
    have hgate : incrementGate r now = false := by
      simp [incrementGate, hlast, hdate]
    simp [incrementHabit, incrementResume, hfind, hgate]
  · intro helig
    have hgate : incrementGate r now = true := by
      rcases helig with hnone | ⟨last, hlast, hlt⟩
      · simp [incrementGate, hnone]
      · simp [incrementGate, hlast]
        exact Nat.ne_of_lt hlt
    have hwrite : (incrementHabit store uid gid now).2 =
        incrementWrite store uid gid now := by
      simp [incrementHabit, incrementResume, hfind, hgate]
    refine ⟨by simp [incrementHabit, incrementResume, hfind, hgate], ?_⟩
    rw [hwrite, incrementWrite,
      find?_updateFirst (matchKey uid gid)
        (fun r => { r with habitCount := r.habitCount + 1,
                           lastIncrement := some now, updatedAt := now })
        (fun _ => rfl) store,
      hfind, Option.map_some']

/-- Witness for C2: one record incremented yesterday is gated today and
incremented the next day. -/
theorem incrementHabit_cooldown_witness :
    incrementHabit [⟨1, 1, "u", "U", 0, 1, false, 3, some 100, none, 0, 0⟩]
        1 1 200 =
      (IncOutcome.alreadyIncremented,
        [⟨1, 1, "u", "U", 0, 1, false, 3, some 100, none, 0, 0⟩]) ∧
    (incrementHabit [⟨1, 1, "u", "U", 0, 1, false, 3, some 100, none, 0, 0⟩]
        1 1 200000).2.find? (matchKey 1 1) =
      some ⟨1, 1, "u", "U", 0, 1, false, 4, some 200000, none, 0, 200000⟩ :=
  ⟨(incrementHabit_cooldown
      [⟨1, 1, "u", "U", 0, 1, false, 3, some 100, none, 0, 0⟩] 1 1 200
      ⟨1, 1, "u", "U", 0, 1, false, 3, some 100, none, 0, 0⟩ (by decide)).1
      100 rfl rfl,
   ((incrementHabit_cooldown
      [⟨1, 1, "u", "U", 0, 1, false, 3, some 100, none, 0, 0⟩] 1 1 200000
      ⟨1, 1, "u", "U", 0, 1, false, 3, some 100, none, 0, 0⟩ (by decide)).2
      (Or.inr ⟨100, rfl, by decide⟩)).2⟩

/-! ### C8: the increment check-and-set is not atomic -/

/-- C8 (refuting the atomicity claim): `increment_habit` is an
application-level `get_member` read followed by an `update_one` whose filter
names only the ids, so two overlapping invocations whose reads both complete
before either write — at two instants of the same UTC day — both report
`incremented` and together raise `habit_count` by 2: more than one increment
succeeds inside a single cooldown period. -/
theorem incrementRace_both_succeed :
    incrementRace [⟨1, 1, "u", "U", 0, 1, false, 0, none, none, 0, 0⟩]
        1 1 100 200 =
      (IncOutcome.incremented, IncOutcome.incremented,
        [⟨1, 1, "u", "U", 0, 1, false, 2, some 200, none, 0, 200⟩]) ∧
    dateOf 100 = dateOf 200 := by decide

/-! ### C5: write-path frame properties of the Reconciler -/

/-- The fields that the reconcile update branch never writes. -/
def syncFrameView (r : MemberRecord) :
    Nat × Nat × Timestamp × Nat × Nat × Option Timestamp × Option Timestamp × Timestamp :=
  (r.userId, r.guildId, r.joinedAt, r.joinPosition, r.habitCount,
    r.lastIncrement, r.lastActive, r.createdAt)

/-- Counterexample to C5 as stated: `add_member` invoked for a user that
already has a stored document (here with `joinPosition = 3`,
`habitCount = 7`, `lastIncrement = 42`) `$set`s `join_position` to a freshly
computed value, `habit_count` to 0 and `last_increment` to null, so the
single-member insert path does not leave those fields unchanged. -/
theorem addMember_existing_resets_habit :
    (([⟨1, 1, "u", "U", 5, 3, false, 7, some 42, none, 0, 0⟩].find?
        (matchKey 1 1)).map
      (fun r => (r.joinPosition, r.habitCount, r.lastIncrement)) =
        some (3, 7, some 42)) ∧
    (((addMember [⟨1, 1, "u", "U", 5, 3, false, 7, some 42, none, 0, 0⟩]
          1 1 "u" "U" 5 false 100).2.find? (matchKey 1 1)).map
      (fun r => (r.joinPosition, r.habitCount, r.lastIncrement)) =
        some (1, 0, none)) := by decide

/-- C5 as amended: the update branch of reconcile (`_perform_sync`) writes
only `username`, `display_name`, `is_bot` and `updated_at`, leaving
`joinPosition`, `habitCount`, `lastIncrement` (and `joinedAt`, `lastActive`,
`createdAt`) of every document unchanged; `add_member`, by contrast, when a
document already exists for the key, overwrites its `join_position` with the
freshly computed value and resets `habit_count` to 0 and `last_increment` to
null.  The `on_member_join` handlers call `add_member` unconditionally, so a
member whose document survived (e.g. on a re-join) has that document reset;
only the increment button checks for an existing record first. -/
theorem syncUpdate_frame (uid gid : Nat) (now : Timestamp) (m : Member)
    (store : List MemberRecord) (username displayName : String)
    (joinedAt : Timestamp) (isBot : Bool) :
    (updateFirst (matchKey uid gid) (syncUpdate now m) store).map syncFrameView =
      store.map syncFrameView ∧
    ((store.find? (matchKey uid gid)).isSome →
      ((addMember store uid gid username displayName joinedAt isBot now).2.find?
          (matchKey uid gid)).map
        (fun r => (r.habitCount, r.lastIncrement, r.joinPosition)) =
        some (0, none, calculateJoinPosition store gid joinedAt)) := by
  constructor
  · exact updateFirst_map_eq syncFrameView (matchKey uid gid) (syncUpdate now m)
      (fun _ => rfl) store
  · intro hsome
    rw [addMember]
    simp only [hsome, if_true]
    rw [find?_updateFirst (matchKey uid gid)
      (fun r => { r with username := username, displayName := displayName,
                         joinedAt := joinedAt,
                         joinPosition := calculateJoinPosition store gid joinedAt,
                         isBot := isBot, habitCount := 0, lastIncrement := none,
                         lastActive := some now, updatedAt := now })
      (fun _ => rfl) store]
    rcases Option.isSome_iff_exists.mp hsome with ⟨r0, hr0⟩
    rw [hr0, Option.map_some', Option.map_some']

/-- Witness for C5 (amended) at a one-document collection. -/
theorem syncUpdate_frame_witness :
    ((addMember [⟨1, 1, "u", "U", 5, 3, false, 7, some 42, none, 0, 0⟩]
        1 1 "u2" "U2" 9 false 100).2.find? (matchKey 1 1)).map
      (fun r => (r.habitCount, r.lastIncrement, r.joinPosition)) =
      some (0, none,
        calculateJoinPosition
          [⟨1, 1, "u", "U", 5, 3, false, 7, some 42, none, 0, 0⟩] 1 9) :=
  (syncUpdate_frame 1 1 100 ⟨1, "u", "U", none, false⟩
    [⟨1, 1, "u", "U", 5, 3, false, 7, some 42, none, 0, 0⟩]
    "u2" "U2" 9 false).2 (by decide)

/-! ### C10: `update_member` writes only its allowed fields -/

/-- The fields `update_member` can never write. -/
def updateFrameView (r : MemberRecord) :
    Nat × Nat × Timestamp × Nat × Bool × Nat × Timestamp :=
  (r.userId, r.guildId, r.joinedAt, r.joinPosition, r.isBot, r.habitCount,
    r.createdAt)

theorem applyField_allowed_frame (r : MemberRecord) (f : FieldAssign)
    (hf : allowedFields.contains (fieldKey f) = true) :
    updateFrameView (applyField r f) = updateFrameView r := by
  cases f <;> first
    | rfl
    | (exfalso; simp [allowedFields, fieldKey] at hf)

theorem foldl_applyField_frame (l : List FieldAssign)
    (hl : ∀ f ∈ l, allowedFields.contains (fieldKey f) = true) :
    ∀ r : MemberRecord, updateFrameView (l.foldl applyField r) = updateFrameView r := by
  induction l with
  | nil => intro r; rfl
  | cons f fs ih =>
    intro r
    rw [List.foldl_cons,
      ih (fun g hg => hl g (List.mem_cons_of_mem f hg)) (applyField r f),
      applyField_allowed_frame r f (hl f (List.mem_cons_self f fs))]

/-- C10: `update_member` only ever writes `username`, `display_name`,
`last_active`, `last_increment` (plus the `updated_at` bump); every other
supplied keyword — including `habit_count`, `join_position`, `joined_at`,
`is_bot`, as passable from the `!editinfo` direct-edit tooling — is silently
discarded, and when no allowed keyword is supplied the collection state is
exactly unchanged (no write happens, `updated_at` is not bumped). -/
theorem updateMember_frame (store : List MemberRecord) (uid gid : Nat)
    (kwargs : List FieldAssign) (now : Timestamp) :
    (updateMember store uid gid kwargs now).map updateFrameView =
      store.map updateFrameView ∧
    ((∀ f ∈ kwargs, fieldKey f ∉ allowedFields) →
      updateMember store uid gid kwargs now = store) := by
  constructor
  · rw [updateMember]
    by_cases hemp :
        (kwargs.filter (fun f => allowedFields.contains (fieldKey f))).isEmpty
    · simp only [hemp, if_true]
    · simp only [hemp, if_false]
      refine updateFirst_map_eq updateFrameView _ _ (fun r => ?_) store
      have hall : ∀ f ∈ kwargs.filter (fun f => allowedFields.contains (fieldKey f)),
          allowedFields.contains (fieldKey f) = true := by
        intro f hf
        exact (List.mem_filter.mp hf).2
      calc updateFrameView
            { (kwargs.filter (fun f => allowedFields.contains (fieldKey f))).foldl
                applyField r with updatedAt := now }
          = updateFrameView
              ((kwargs.filter (fun f => allowedFields.contains (fieldKey f))).foldl
                applyField r) := rfl
        _ = updateFrameView r := foldl_applyField_frame _ hall r
  · intro hnone
    have hfil : kwargs.filter (fun f => allowedFields.contains (fieldKey f)) = [] := by
      refine List.filter_eq_nil_iff.mpr (fun f hf => ?_)
      simp only [Bool.not_eq_true]
      simpa using hnone f hf
    rw [updateMember, hfil]
    rfl

/-- Witness for C10: a call supplying only `habit_count` and `join_position`
performs no write at all. -/
theorem updateMember_frame_witness :
    updateMember [⟨1, 1, "u", "U", 0, 1, false, 3, none, none, 0, 0⟩] 1 1
      [FieldAssign.habitCount 99, FieldAssign.joinPosition 5] 50 =
      [⟨1, 1, "u", "U", 0, 1, false, 3, none, none, 0, 0⟩] :=
  (updateMember_frame [⟨1, 1, "u", "U", 0, 1, false, 3, none, none, 0, 0⟩] 1 1
    [FieldAssign.habitCount 99, FieldAssign.joinPosition 5] 50).2 (by decide)

/-! ### Lemmas about `enumFrom` -/

theorem enumFrom_map_fst {α : Type} (n : Nat) (l : List α) :
    (enumFrom n l).map Prod.fst = List.range' n l.length := by
  induction l generalizing n with
  | nil => rfl
  | cons x xs ih =>
    rw [enumFrom, List.map_cons, ih (n + 1), List.length_cons, List.range'_succ]

theorem enumFrom_length {α : Type} (n : Nat) (l : List α) :
    (enumFrom n l).length = l.length := by
  induction l generalizing n with
  | nil => rfl
  | cons x xs ih => rw [enumFrom, List.length_cons, ih (n + 1), List.length_cons]

theorem mem_enumFrom_snd {α : Type} {p : Nat × α} {l : List α} {n : Nat}
    (hp : p ∈ enumFrom n l) : p.2 ∈ l := by
  induction l generalizing n with
  | nil => cases hp
  | cons x xs ih =>
    rcases List.mem_cons.mp hp with rfl | hp'
    · exact List.mem_cons_self x xs
    · exact List.mem_cons_of_mem x (ih hp')

theorem enumFrom_pairwise {α : Type} {R : α → α → Prop} {l : List α}
    (hl : l.Pairwise R) (n : Nat) :
    (enumFrom n l).Pairwise (fun a b => R a.2 b.2) := by
  induction l generalizing n with
  | nil => exact List.Pairwise.nil
  | cons x xs ih =>
    rcases List.pairwise_cons.mp hl with ⟨hx, hxs⟩
    refine List.pairwise_cons.mpr ⟨fun b hb => hx b.2 (mem_enumFrom_snd hb), ?_⟩
    exact (ih hxs) (n + 1)

theorem enumFrom_eq_zip_range' {α : Type} (n : Nat) (l : List α) :
    enumFrom n l = (List.range' n l.length).zip l := by
  induction l generalizing n with
  | nil => rfl
  | cons x xs ih =>
    rw [enumFrom, List.length_cons, List.range'_succ, List.zip_cons_cons, ih (n + 1)]

theorem drop_enumFrom {α : Type} (k n : Nat) (l : List α) :
    (enumFrom n l).drop k = enumFrom (n + k) (l.drop k) := by
  induction k generalizing n l with
  | zero => rfl
  | succ k ih =>
    cases l with
    | nil => rfl
    | cons x xs =>
      rw [enumFrom, List.drop_succ_cons, List.drop_succ_cons, ih (n + 1) xs]
      congr 1
      omega

theorem take_enumFrom {α : Type} (k n : Nat) (l : List α) :
    (enumFrom n l).take k = enumFrom n (l.take k) := by
  induction k generalizing n l with
  | zero => rfl
  | succ k ih =>
    cases l with
    | nil => rfl
    | cons x xs =>
      rw [enumFrom, List.take_succ_cons, List.take_succ_cons, enumFrom, ih (n + 1) xs]

/-! ### C6: the rank assignment is strictly sequential -/

/-- C6: the ranking assigns ranks that are exactly `1..K` (`K` the number of
the guild's documents with `habit_count >= 1`) — no duplicates, no gaps, no
shared ranks for ties — and the underlying `habit_count` values are
non-increasing as the rank increases; every ranked document belongs to the
guild and has `habit_count >= 1`. -/
theorem rankAll_sequential (store : List MemberRecord) (gid : Nat) :
    (rankAll store gid).map Prod.fst =
      List.range' 1 (store.filter
        (fun r => r.guildId == gid && decide (1 ≤ r.habitCount))).length ∧
    (rankAll store gid).Pairwise (fun a b => b.2.habitCount ≤ a.2.habitCount) ∧
    (∀ p ∈ rankAll store gid, 1 ≤ p.2.habitCount ∧ p.2.guildId = gid) := by
  refine ⟨?_, ?_, ?_⟩
  · rw [rankAll, enumFrom_map_fst, rankedMembers,
      List.length_insertionSort]
  · have hsorted : (rankedMembers store gid).Pairwise
        (fun a b => b.habitCount ≤ a.habitCount) := by
      haveI : IsTotal MemberRecord (fun a b => b.habitCount ≤ a.habitCount) :=
        ⟨fun a b => Nat.le_total b.habitCount a.habitCount⟩
      haveI : IsTrans MemberRecord (fun a b => b.habitCount ≤ a.habitCount) :=
        ⟨fun _ _ _ hab hbc => Nat.le_trans hbc hab⟩
      exact List.sorted_insertionSort _ _
    exact enumFrom_pairwise hsorted 1
  · intro p hp
    have hmem : p.2 ∈ rankedMembers store gid := mem_enumFrom_snd hp
    have hfil : p.2 ∈ store.filter
        (fun r => r.guildId == gid && decide (1 ≤ r.habitCount)) :=
      (List.mem_insertionSort _).mp hmem
    have hcond := (List.mem_filter.mp hfil).2
    simp only [Bool.and_eq_true, beq_iff_eq, decide_eq_true_eq] at hcond
    exact ⟨hcond.2, hcond.1⟩

/-! ### C7: pagination is exactly a slice of the ranking -/

/-- C7: the page of the leaderboard at `(offset, limit)` is exactly the slice
`rank[offset : offset + limit]` of the full rank assignment (the locally
computed display ranks `offset+1, ...` agree with the global 1-based ranks);
an out-of-range offset (`offset >= K`) yields the empty slice rather than an
error, and `offset = 0` yields exactly the first `limit` ranked entries. -/
theorem pageEntries_is_slice (store : List MemberRecord)
    (gid offset limit : Nat) :
    pageEntries store gid offset limit =
      ((rankAll store gid).drop offset).take limit ∧
    ((rankedMembers store gid).length ≤ offset →
      pageEntries store gid offset limit = []) ∧
    pageEntries store gid 0 limit = (rankAll store gid).take limit := by
  have hmain : pageEntries store gid offset limit =
      ((rankAll store gid).drop offset).take limit := by
    rw [pageEntries, rankAll, drop_enumFrom, take_enumFrom,
      ← enumFrom_eq_zip_range']
    congr 1
    omega
  refine ⟨hmain, fun hoff => ?_, ?_⟩
  · rw [hmain, List.drop_eq_nil_of_le, List.take_nil]
    rw [rankAll, enumFrom_length]
    exact hoff
  · rw [pageEntries, rankAll, List.drop_zero, take_enumFrom,
      ← enumFrom_eq_zip_range']

/-- Witness for C7: an out-of-range offset on a two-member ranking yields the
empty page. -/
theorem pageEntries_is_slice_witness :
    pageEntries [⟨1, 1, "u", "U", 0, 1, false, 5, none, none, 0, 0⟩,
                 ⟨2, 1, "v", "V", 0, 2, false, 9, none, none, 0, 0⟩] 1 10 10 = [] :=
  (pageEntries_is_slice [⟨1, 1, "u", "U", 0, 1, false, 5, none, none, 0, 0⟩,
    ⟨2, 1, "v", "V", 0, 2, false, 9, none, none, 0, 0⟩] 1 10 10).2.1 (by decide)

/-! ### Lemmas for the sync loop -/

theorem find?_isSome_append_right {p : MemberRecord → Bool}
    {l1 l2 : List MemberRecord} (h : (l2.find? p).isSome = true) :
    ((l1 ++ l2).find? p).isSome = true := by
  rw [List.find?_append]
  cases h1 : l1.find? p with
  | none => simpa using h
  | some x => rfl

theorem find?_isSome_append_left {p : MemberRecord → Bool}
    {l1 l2 : List MemberRecord} (h : (l1.find? p).isSome = true) :
    ((l1 ++ l2).find? p).isSome = true := by
  rw [List.find?_append]
  rcases Option.isSome_iff_exists.mp h with ⟨x, hx⟩
  rw [hx]
  rfl

theorem syncLoop_find_mono (gid : Nat) (now : Timestamp) (h uid : Nat) :
    ∀ (rem pre : List Member) (store : List MemberRecord) (a u : Nat),
      (store.find? (matchKey uid gid)).isSome = true →
      ((syncLoop gid now h pre rem store a u).store.find?
        (matchKey uid gid)).isSome = true := by
  intro rem
  induction rem with
  | nil => intro pre store a u hs; exact hs
  | cons m ms ih =>
    intro pre store a u hs
    rw [syncLoop]
    by_cases hm : (store.find? (matchKey m.id gid)).isSome
    · rw [if_pos hm]
      refine ih _ _ _ _ ?_
      rw [find?_isSome_updateFirst (matchKey m.id gid) (matchKey uid gid)
        (syncUpdate now m) (fun _ => rfl)]
      exact hs
    · rw [if_neg hm]
      exact ih _ _ _ _ (find?_isSome_append_left hs)

theorem syncLoop_ensures (gid : Nat) (now : Timestamp) (h : Nat) (mm : Member) :
    ∀ (rem pre : List Member) (store : List MemberRecord) (a u : Nat),
      mm ∈ rem →
      ((syncLoop gid now h pre rem store a u).store.find?
        (matchKey mm.id gid)).isSome = true := by
  intro rem
  induction rem with
  | nil => intro _ _ _ _ hmem; cases hmem
  | cons m ms ih =>
    intro pre store a u hmem
    rw [syncLoop]
    by_cases hm : (store.find? (matchKey m.id gid)).isSome
    · rw [if_pos hm]
      rcases List.mem_cons.mp hmem with rfl | hmem'
      · refine syncLoop_find_mono gid now h mm.id _ _ _ _ _ ?_
        rw [find?_isSome_updateFirst (matchKey mm.id gid) (matchKey mm.id gid)
          (syncUpdate now mm) (fun _ => rfl)]
        exact hm
      · exact ih _ _ _ _ hmem'
    · rw [if_neg hm]
      rcases List.mem_cons.mp hmem with rfl | hmem'
      · refine syncLoop_find_mono gid now h mm.id _ _ _ _ _ ?_
        refine find?_isSome_append_right ?_
        rw [List.find?_cons_of_pos _ (by simp [matchKey, syncInsertDoc])]
        rfl
      · exact ih _ _ _ _ hmem'

/-- The fields whose multiset of values across the collection the update
branch preserves: key and join position. -/
def posView (r : MemberRecord) : Nat × Nat × Nat :=
  (r.userId, r.guildId, r.joinPosition)

theorem syncLoop_all_existing (gid : Nat) (now : Timestamp) (h : Nat) :
    ∀ (rem pre : List Member) (store : List MemberRecord) (a u : Nat),
      (∀ m ∈ rem, (store.find? (matchKey m.id gid)).isSome = true) →
      (syncLoop gid now h pre rem store a u).added = a ∧
      (syncLoop gid now h pre rem store a u).updated = u + rem.length ∧
      (syncLoop gid now h pre rem store a u).store.map posView =
        store.map posView := by
  intro rem
  induction rem with
  | nil => intro pre store a u _; exact ⟨rfl, rfl, rfl⟩
  | cons m ms ih =>
    intro pre store a u hall
    have hm := hall m (List.mem_cons_self m ms)
    rw [syncLoop, if_pos hm]
    have hrest : ∀ m' ∈ ms,
        ((updateFirst (matchKey m.id gid) (syncUpdate now m) store).find?
          (matchKey m'.id gid)).isSome = true := by
      intro m' hm'
      rw [find?_isSome_updateFirst (matchKey m.id gid) (matchKey m'.id gid)
        (syncUpdate now m) (fun _ => rfl)]
      exact hall m' (List.mem_cons_of_mem m hm')
    rcases ih (pre ++ [m]) _ a (u + 1) hrest with ⟨h1, h2, h3⟩
    refine ⟨h1, by rw [h2, List.length_cons]; omega, h3.trans ?_⟩
    exact updateFirst_map_eq posView (matchKey m.id gid) (syncUpdate now m)
      (fun _ => rfl) store

theorem mem_computeOrdering {m : Member} {members : List Member}
    (now : Timestamp) : m ∈ members ↔ m ∈ computeOrdering now members := by
  rw [computeOrdering, List.mem_append, sortMembers, sortMembers,
    List.mem_insertionSort, List.mem_insertionSort, List.mem_filter,
    List.mem_filter]
  constructor
  · intro hm
    by_cases hb : m.bot
    · exact Or.inr ⟨hm, by simp [hb]⟩
    · exact Or.inl ⟨hm, by simp [hb]⟩
  · rintro (⟨hm, _⟩ | ⟨hm, _⟩) <;> exact hm

theorem computeOrdering_perm (now : Timestamp) (members : List Member) :
    (computeOrdering now members).Perm members := by
  rw [computeOrdering]
  refine ((List.perm_insertionSort _ _).append
    (List.perm_insertionSort _ _)).trans ?_
  have hcongr : members.filter (fun x => !(!x.bot)) =
      members.filter (fun x => x.bot) :=
    List.filter_congr (fun x _ => by simp)
  have h := List.filter_append_perm (fun m => !m.bot) members
  rw [hcongr] at h
  exact h

/-! ### C3: reconcile is idempotent -/

/-- C3: running `_perform_sync` again over an unchanged live membership,
starting from the collection state any previous run produced, reports
`added = 0` — every member hits the update branch, none the insert branch —
and leaves every stored document's `join_position` (together with its key)
unchanged, position by position. -/
theorem performSync_idempotent (gid : Nat) (now1 now2 : Timestamp)
    (members : List Member) (store : List MemberRecord) :
    (performSync gid now2 members
      (performSync gid now1 members store).store).added = 0 ∧
    (performSync gid now2 members
      (performSync gid now1 members store).store).updated = members.length ∧
    (performSync gid now2 members
        (performSync gid now1 members store).store).store.map posView =
      (performSync gid now1 members store).store.map posView := by
  have hall : ∀ m ∈ computeOrdering now2 members,
      (((performSync gid now1 members store).store.find?
        (matchKey m.id gid)).isSome = true) := by
    intro m hm
    have hmem : m ∈ members := (mem_computeOrdering now2).mpr hm
    have hord1 : m ∈ computeOrdering now1 members :=
      (mem_computeOrdering now1).mp hmem
    unfold performSync
    exact syncLoop_ensures gid now1 _ m _ [] store 0 0 hord1
  rcases syncLoop_all_existing gid now2
    (sortMembers now2 (members.filter (fun m => !m.bot))).length
    (computeOrdering now2 members) []
    (performSync gid now1 members store).store 0 0 hall with ⟨h1, h2, h3⟩
  exact ⟨h1,
    h2.trans (by rw [Nat.zero_add]; exact (computeOrdering_perm now2 members).length_eq),
    h3⟩

/-! ### The insert path of the sync loop on fresh members -/

/-- The documents the sync loop inserts when every processed member is new,
in processing order (`pre` is the already processed prefix). -/
def syncFreshDocs (gid : Nat) (now : Timestamp) (h : Nat) :
    List Member → List Member → List MemberRecord
  | _, [] => []
  | pre, m :: ms =>
    syncInsertDoc gid now (syncPos h pre m) m ::
      syncFreshDocs gid now h (pre ++ [m]) ms

theorem syncLoop_all_new (gid : Nat) (now : Timestamp) (h : Nat) :
    ∀ (rem pre : List Member) (store : List MemberRecord) (a u : Nat),
      (rem.map Member.id).Nodup →
      (∀ m ∈ rem, store.find? (matchKey m.id gid) = none) →
      syncLoop gid now h pre rem store a u =
        ⟨store ++ syncFreshDocs gid now h pre rem, a + rem.length, u⟩ := by
  intro rem
  induction rem with
  | nil =>
    intro pre store a u _ _
    rw [syncLoop, syncFreshDocs]
    simp
  | cons m ms ih =>
    intro pre store a u hnodup hnone
    have hm : store.find? (matchKey m.id gid) = none :=
      hnone m (List.mem_cons_self m ms)
    rw [syncLoop, if_neg (by rw [hm]; simp)]
    rw [List.map_cons, List.nodup_cons] at hnodup
    have hnone' : ∀ m' ∈ ms,
        (store ++ [syncInsertDoc gid now (syncPos h pre m) m]).find?
          (matchKey m'.id gid) = none := by
      intro m' hm'
      rw [List.find?_append, hnone m' (List.mem_cons_of_mem m hm')]
      have hkey : matchKey m'.id gid (syncInsertDoc gid now (syncPos h pre m) m)
          = false := by
        simp only [matchKey, syncInsertDoc, Bool.and_eq_false_iff, beq_eq_false_iff_ne]
        exact Or.inl (fun heq => hnodup.1 (heq ▸ List.mem_map_of_mem Member.id hm'))
      simp [List.find?, hkey]
    rw [ih (pre ++ [m]) _ (a + 1) u hnodup.2 hnone', syncFreshDocs]
    simp only [SyncResult.mk.injEq, List.append_assoc, List.singleton_append,
      List.length_cons, true_and, and_true]
    omega

theorem syncFreshDocs_length (gid : Nat) (now : Timestamp) (h : Nat) :
    ∀ (rem pre : List Member),
      (syncFreshDocs gid now h pre rem).length = rem.length := by
  intro rem
  induction rem with
  | nil => intro pre; rfl
  | cons m ms ih =>
    intro pre
    rw [syncFreshDocs, List.length_cons, List.length_cons, ih (pre ++ [m])]

theorem syncFreshDocs_append (gid : Nat) (now : Timestamp) (h : Nat) :
    ∀ (l1 l2 pre : List Member),
      syncFreshDocs gid now h pre (l1 ++ l2) =
        syncFreshDocs gid now h pre l1 ++
          syncFreshDocs gid now h (pre ++ l1) l2 := by
  intro l1
  induction l1 with
  | nil => intro l2 pre; simp [syncFreshDocs]
  | cons m ms ih =>
    intro l2 pre
    rw [List.cons_append, syncFreshDocs, syncFreshDocs, ih l2 (pre ++ [m]),
      List.cons_append, List.append_assoc, List.singleton_append]

theorem syncFreshDocs_humans (gid : Nat) (now : Timestamp) (h : Nat) :
    ∀ (rem pre : List Member),
      (∀ x ∈ pre, x.bot = false) → (∀ m ∈ rem, m.bot = false) →
      (syncFreshDocs gid now h pre rem).map
          (fun d => (d.isBot, d.joinPosition)) =
        (List.range' (pre.length + 1) rem.length).map (fun i => (false, i)) := by
  intro rem
  induction rem with
  | nil => intro pre _ _; rfl
  | cons m ms ih =>
    intro pre hpre hrem
    have hmbot : m.bot = false := hrem m (List.mem_cons_self m ms)
    have hfil : pre.filter (fun x => !x.bot) = pre :=
      List.filter_eq_self.mpr (fun x hx => by simp [hpre x hx])
    rw [syncFreshDocs, List.map_cons, List.length_cons, List.range'_succ,
      List.map_cons]
    refine congrArg₂ (· :: ·) (by simp [syncInsertDoc, syncPos, hmbot, hfil]) ?_
    have hpre' : ∀ x ∈ pre ++ [m], x.bot = false := by
      intro x hx
      rcases List.mem_append.mp hx with hx' | hx'
      · exact hpre x hx'
      · rw [List.mem_singleton.mp hx']; exact hmbot
    have := ih (pre ++ [m]) hpre'
      (fun m' hm' => hrem m' (List.mem_cons_of_mem m hm'))
    rw [this, List.length_append, List.length_singleton]

theorem syncFreshDocs_bots (gid : Nat) (now : Timestamp) (h : Nat) :
    ∀ (rem pre : List Member), (∀ m ∈ rem, m.bot = true) →
      (syncFreshDocs gid now h pre rem).map
          (fun d => (d.isBot, d.joinPosition)) =
        List.replicate rem.length (true, h + 1) := by
  intro rem
  induction rem with
  | nil => intro pre _; rfl
  | cons m ms ih =>
    intro pre hrem
    have hmbot : m.bot = true := hrem m (List.mem_cons_self m ms)
    rw [syncFreshDocs, List.map_cons, List.length_cons, List.replicate_succ]
    exact congrArg₂ (· :: ·) (by simp [syncInsertDoc, syncPos, hmbot])
      (ih (pre ++ [m]) (fun m' hm' => hrem m' (List.mem_cons_of_mem m hm')))

theorem syncFreshDocs_map_joinedAt (gid : Nat) (now : Timestamp) (h : Nat) :
    ∀ (rem pre : List Member),
      (syncFreshDocs gid now h pre rem).map (fun d => d.joinedAt) =
        rem.map (sortKey now) := by
  intro rem
  induction rem with
  | nil => intro pre; rfl
  | cons m ms ih =>
    intro pre
    rw [syncFreshDocs, List.map_cons, List.map_cons, ih (pre ++ [m])]
    rfl

/-! ### The rebuild insert loop -/

theorem rebuildDocs_length (gid : Nat) (now : Timestamp)
    (snap : Nat → Option (Nat × Option Timestamp)) :
    ∀ (l : List Member) (pos : Nat),
      (rebuildDocs gid now snap pos l).length = l.length := by
  intro l
  induction l with
  | nil => intro pos; rfl
  | cons m ms ih =>
    intro pos
    rw [rebuildDocs, List.length_cons, List.length_cons, ih (pos + 1)]

theorem rebuildDocs_append (gid : Nat) (now : Timestamp)
    (snap : Nat → Option (Nat × Option Timestamp)) :
    ∀ (l1 l2 : List Member) (pos : Nat),
      rebuildDocs gid now snap pos (l1 ++ l2) =
        rebuildDocs gid now snap pos l1 ++
          rebuildDocs gid now snap (pos + l1.length) l2 := by
  intro l1
  induction l1 with
  | nil => intro l2 pos; simp [rebuildDocs]
  | cons m ms ih =>
    intro l2 pos
    rw [List.cons_append, rebuildDocs, rebuildDocs, ih l2 (pos + 1),
      List.cons_append, List.length_cons]
    have : pos + 1 + ms.length = pos + (ms.length + 1) := by omega
    rw [this]

theorem rebuildDocs_map_pair_const (gid : Nat) (now : Timestamp)
    (snap : Nat → Option (Nat × Option Timestamp)) (b : Bool) :
    ∀ (l : List Member) (pos : Nat), (∀ m ∈ l, m.bot = b) →
      (rebuildDocs gid now snap pos l).map
          (fun d => (d.isBot, d.joinPosition)) =
        (List.range' pos l.length).map (fun i => (b, i)) := by
  intro l
  induction l with
  | nil => intro pos _; rfl
  | cons m ms ih =>
    intro pos hl
    rw [rebuildDocs, List.map_cons, List.length_cons, List.range'_succ,
      List.map_cons]
    exact congrArg₂ (· :: ·)
      (by simp [rebuildDoc, hl m (List.mem_cons_self m ms)])
      (ih (pos + 1) (fun m' hm' => hl m' (List.mem_cons_of_mem m hm')))

theorem rebuildDocs_map_joinedAt (gid : Nat) (now : Timestamp)
    (snap : Nat → Option (Nat × Option Timestamp)) :
    ∀ (l : List Member) (pos : Nat),
      (rebuildDocs gid now snap pos l).map (fun d => d.joinedAt) =
        l.map (sortKey now) := by
  intro l
  induction l with
  | nil => intro pos; rfl
  | cons m ms ih =>
    intro pos
    rw [rebuildDocs, List.map_cons, List.map_cons, ih (pos + 1)]
    rfl

/-! ### Sortedness and membership of the shared ordering -/

theorem sortMembers_pairwise (now : Timestamp) (l : List Member) :
    (sortMembers now l).Pairwise (fun a b => sortKey now a ≤ sortKey now b) := by
  haveI : IsTotal Member (fun a b => sortKey now a ≤ sortKey now b) :=
    ⟨fun a b => Nat.le_total _ _⟩
  haveI : IsTrans Member (fun a b => sortKey now a ≤ sortKey now b) :=
    ⟨fun _ _ _ => Nat.le_trans⟩
  exact List.sorted_insertionSort _ _

theorem mem_sortMembers_filter {now : Timestamp} {members : List Member}
    {p : Member → Bool} {m : Member}
    (hm : m ∈ sortMembers now (members.filter p)) : p m = true :=
  (List.mem_filter.mp ((List.mem_insertionSort _).mp hm)).2

theorem sortMembers_length (now : Timestamp) (l : List Member) :
    (sortMembers now l).length = l.length :=
  List.length_insertionSort _ l

theorem pairwise_joinedAt_of_map {docs : List MemberRecord}
    {l : List Member} {now : Timestamp}
    (hmap : docs.map (fun d => d.joinedAt) = l.map (sortKey now))
    (hl : l.Pairwise (fun a b => sortKey now a ≤ sortKey now b)) :
    docs.Pairwise (fun a b => a.joinedAt ≤ b.joinedAt) := by
  have hm : (docs.map (fun d => d.joinedAt)).Pairwise (fun a b => a ≤ b) := by
    rw [hmap]
    exact (List.pairwise_map).mpr hl
  exact (List.pairwise_map).mp hm

/-! ### C1: join-position assignment of the sync and rebuild paths -/

/-- Counterexample to C1 as stated: on the sync insert path every bot
receives `join_position = len(humans) + 1` (debug.py:448), so syncing a live
list of two bots (and no humans) into an empty collection inserts both
documents with position 1 — the bot positions are not the distinct values
`H+1..H+B` the claim asserts. -/
theorem performSync_bot_positions_collide :
    ((performSync 1 100 [⟨10, "a", "A", some 10, true⟩,
        ⟨20, "b", "B", some 20, true⟩] []).store.map
      (fun r => r.joinPosition)) = [1, 1] ∧
    ¬ ((performSync 1 100 [⟨10, "a", "A", some 10, true⟩,
        ⟨20, "b", "B", some 20, true⟩] []).store.map
      (fun r => r.joinPosition)).Nodup := by decide

/-- C1 as amended.  With all live member ids distinct and none of them
already stored: on both paths human members are assigned positions exactly
`1..H` in ascending resolved join-date order; on the rebuild path
(`fix_member_data`) bot members are assigned exactly `H+1..H+B`, ascending by
join date; on the sync insert path (`_perform_sync`), however, every inserted
bot is assigned the single position `H+1` (so bot positions coincide when
`B > 1`), and the pre-existing documents are left in place.  Each path is a
pure function of its inputs, so the assignment is identical on every call
with the same input (determinism is definitional in this embedding). -/
theorem ordering_positions (gid : Nat) (now : Timestamp)
    (members : List Member) (store : List MemberRecord)
    (hids : (members.map Member.id).Nodup)
    (hnew : ∀ m ∈ members, store.find? (matchKey m.id gid) = none) :
    (rebuildDocs gid now (habitSnapshot store gid) 1
        (computeOrdering now members)).map (fun d => (d.isBot, d.joinPosition)) =
      (List.range' 1 (members.filter (fun m => !m.bot)).length).map
          (fun i => ((false : Bool), i)) ++
        (List.range' ((members.filter (fun m => !m.bot)).length + 1)
            (members.filter (fun m => m.bot)).length).map
          (fun i => ((true : Bool), i)) ∧
    ((rebuildDocs gid now (habitSnapshot store gid) 1
        (computeOrdering now members)).take
          (members.filter (fun m => !m.bot)).length).Pairwise
      (fun a b => a.joinedAt ≤ b.joinedAt) ∧
    ((rebuildDocs gid now (habitSnapshot store gid) 1
        (computeOrdering now members)).drop
          (members.filter (fun m => !m.bot)).length).Pairwise
      (fun a b => a.joinedAt ≤ b.joinedAt) ∧
    (performSync gid now members store).store.take store.length = store ∧
    ((performSync gid now members store).store.drop store.length).map
        (fun d => (d.isBot, d.joinPosition)) =
      (List.range' 1 (members.filter (fun m => !m.bot)).length).map
          (fun i => ((false : Bool), i)) ++
        List.replicate (members.filter (fun m => m.bot)).length
          ((true : Bool), (members.filter (fun m => !m.bot)).length + 1) ∧
    (((performSync gid now members store).store.drop store.length).take
        (members.filter (fun m => !m.bot)).length).Pairwise
      (fun a b => a.joinedAt ≤ b.joinedAt) := by
  have hordEq : computeOrdering now members =
      sortMembers now (members.filter (fun m => !m.bot)) ++
        sortMembers now (members.filter (fun m => m.bot)) := rfl
  have hshlen : (sortMembers now (members.filter (fun m => !m.bot))).length =
      (members.filter (fun m => !m.bot)).length := sortMembers_length now _
  have hsblen : (sortMembers now (members.filter (fun m => m.bot))).length =
      (members.filter (fun m => m.bot)).length := sortMembers_length now _
  have hshbot : ∀ m ∈ sortMembers now (members.filter (fun m => !m.bot)),
      m.bot = false := by
    intro m hm
    have := mem_sortMembers_filter hm
    simpa using this
  have hsbbot : ∀ m ∈ sortMembers now (members.filter (fun m => m.bot)),
      m.bot = true := fun m hm => mem_sortMembers_filter hm
  have hnodup : ((computeOrdering now members).map Member.id).Nodup :=
    (((computeOrdering_perm now members).map Member.id).nodup_iff).mpr hids
  have hnone : ∀ m ∈ computeOrdering now members,
      store.find? (matchKey m.id gid) = none :=
    fun m hm => hnew m ((mem_computeOrdering now).mpr hm)
  have hsync : performSync gid now members store =
      ⟨store ++ syncFreshDocs gid now
          (sortMembers now (members.filter (fun m => !m.bot))).length []
          (computeOrdering now members),
        0 + (computeOrdering now members).length, 0⟩ :=
    syncLoop_all_new gid now _ (computeOrdering now members) [] store 0 0
      hnodup hnone
  refine ⟨?_, ?_, ?_, ?_, ?_, ?_⟩
  · rw [hordEq, rebuildDocs_append, List.map_append,
      rebuildDocs_map_pair_const _ _ _ false _ 1 hshbot,
      rebuildDocs_map_pair_const _ _ _ true _ _ hsbbot, hshlen, hsblen,
      Nat.add_comm 1 (members.filter (fun m => !m.bot)).length]
  · rw [hordEq, rebuildDocs_append,
      List.take_left' (by rw [rebuildDocs_length, hshlen])]
    exact pairwise_joinedAt_of_map (rebuildDocs_map_joinedAt _ _ _ _ _)
      (sortMembers_pairwise now _)
  · rw [hordEq, rebuildDocs_append,
      List.drop_left' (by rw [rebuildDocs_length, hshlen])]
    exact pairwise_joinedAt_of_map (rebuildDocs_map_joinedAt _ _ _ _ _)
      (sortMembers_pairwise now _)
  · rw [hsync]
    exact List.take_left' rfl
  · rw [hsync, List.drop_left' rfl, hordEq, syncFreshDocs_append,
      List.nil_append, List.map_append,
      syncFreshDocs_humans _ _ _ _ [] (fun x hx => absurd hx (List.not_mem_nil x))
        hshbot,
      syncFreshDocs_bots _ _ _ _ _ hsbbot, hshlen, hsblen]
    rfl
  · rw [hsync, List.drop_left' rfl, hordEq, syncFreshDocs_append,
      List.nil_append,
      List.take_left' (by rw [syncFreshDocs_length, hshlen])]
    exact pairwise_joinedAt_of_map (syncFreshDocs_map_joinedAt _ _ _ _ _)
      (sortMembers_pairwise now _)

/-- Witness for C1 (amended): one human and one bot synced into an empty
collection receive positions 1 and 2. -/
theorem ordering_positions_witness :
    ((performSync 1 100 [⟨1, "h", "H", some 5, false⟩,
          ⟨2, "b", "B", some 3, true⟩] []).store.drop 0).map
        (fun d => (d.isBot, d.joinPosition)) =
      (List.range' 1 1).map (fun i => ((false : Bool), i)) ++
        List.replicate 1 ((true : Bool), 2) :=
  (ordering_positions 1 100
    [⟨1, "h", "H", some 5, false⟩, ⟨2, "b", "B", some 3, true⟩] []
    (by decide) (fun m _ => rfl)).2.2.2.2.1

/-! ### C4: the full rebuild preserves habit data of surviving members -/

theorem habitSnapshot_unique {store : List MemberRecord} {gid uid : Nat}
    {r : MemberRecord} (hr : r ∈ store) (hg : r.guildId = gid)
    (hu : r.userId = uid) (h0 : uid ≠ 0)
    (huniq : ∀ x ∈ store, x.guildId = gid → x.userId = uid → x = r) :
    habitSnapshot store gid uid = some (r.habitCount, r.lastIncrement) := by
  rw [habitSnapshot, if_neg h0]
  have hfil : r ∈ (store.filter (fun x => x.guildId == gid)).reverse := by
    rw [List.mem_reverse]
    exact List.mem_filter.mpr ⟨hr, by simp [hg]⟩
  rw [find?_eq_some_of_unique hfil (by simp [hu]) ?uniq]
  · rfl
  case uniq =>
    intro x hx hpx
    have hx' := List.mem_filter.mp (List.mem_reverse.mp hx)
    exact huniq x hx'.1 (by simpa using hx'.2) (by simpa using hpx)

theorem rebuildDocs_find?_isSome (gid : Nat) (now : Timestamp)
    (snap : Nat → Option (Nat × Option Timestamp)) (uid : Nat) :
    ∀ (l : List Member) (pos : Nat) (m : Member), m ∈ l → m.id = uid →
      ((rebuildDocs gid now snap pos l).find?
        (fun d => d.guildId == gid && d.userId == uid)).isSome = true := by
  intro l
  induction l with
  | nil => intro pos m hm _; cases hm
  | cons x xs ih =>
    intro pos m hm hid
    rw [rebuildDocs]
    by_cases hx : x.id = uid
    · rw [List.find?_cons_of_pos _ (by simp [rebuildDoc, hx])]
      rfl
    · rw [List.find?_cons_of_neg _ (by simp [rebuildDoc, hx])]
      rcases List.mem_cons.mp hm with rfl | hm'
      · exact absurd hid hx
      · exact ih (pos + 1) m hm' hid

theorem rebuildDocs_find?_habit (gid : Nat) (now : Timestamp)
    (snap : Nat → Option (Nat × Option Timestamp)) (uid : Nat) :
    ∀ (l : List Member) (pos : Nat) (doc : MemberRecord),
      (rebuildDocs gid now snap pos l).find?
          (fun d => d.guildId == gid && d.userId == uid) = some doc →
      doc.habitCount = ((snap uid).map Prod.fst).getD 0 ∧
      doc.lastIncrement = ((snap uid).map Prod.snd).getD none := by
  intro l
  induction l with
  | nil => intro pos doc h; cases h
  | cons x xs ih =>
    intro pos doc h
    rw [rebuildDocs] at h
    by_cases hx : x.id = uid
    · rw [List.find?_cons_of_pos _ (by simp [rebuildDoc, hx])] at h
      obtain rfl := Option.some.inj h
      subst hx
      exact ⟨rfl, rfl⟩
    · rw [List.find?_cons_of_neg _ (by simp [rebuildDoc, hx])] at h
      exact ih (pos + 1) doc h

theorem rebuildDocs_find?_none (gid : Nat) (now : Timestamp)
    (snap : Nat → Option (Nat × Option Timestamp)) (uid : Nat) :
    ∀ (l : List Member) (pos : Nat), (∀ m ∈ l, m.id ≠ uid) →
      (rebuildDocs gid now snap pos l).find?
        (fun d => d.guildId == gid && d.userId == uid) = none := by
  intro l
  induction l with
  | nil => intro pos _; rfl
  | cons x xs ih =>
    intro pos hl
    rw [rebuildDocs, List.find?_cons_of_neg _
      (by simp [rebuildDoc, hl x (List.mem_cons_self x xs)])]
    exact ih (pos + 1) (fun m hm => hl m (List.mem_cons_of_mem x hm))

theorem fixMemberData_find? (store : List MemberRecord) (gid : Nat)
    (now : Timestamp) (members : List Member) (uid : Nat) :
    (fixMemberData store gid now members).find?
        (fun d => d.guildId == gid && d.userId == uid) =
      (rebuildDocs gid now (habitSnapshot store gid) 1
        (computeOrdering now members)).find?
        (fun d => d.guildId == gid && d.userId == uid) := by
  rw [fixMemberData, List.find?_append]
  have hpre : (store.filter (fun r => !(r.guildId == gid))).find?
      (fun d => d.guildId == gid && d.userId == uid) = none := by
    rw [List.find?_eq_none]
    intro x hx
    have hxg := (List.mem_filter.mp hx).2
    simp only [Bool.not_eq_true', beq_eq_false_iff_ne] at hxg
    simp [hxg]
  rw [hpre, Option.none_or]

/-- C4: a member stored before a `fix_member_data` rebuild (with the spec's
one-record-per-key invariant and a nonzero user id) and present in the new
live list ends up with a rebuilt document whose `habit_count` and
`last_increment` are identical to the pre-rebuild document's (even though
`join_position` may be recomputed); a stored member absent from the new live
list has no document for this guild after the rebuild — the habit data is
discarded. -/
theorem fixMemberData_preserves_habit (store : List MemberRecord)
    (gid : Nat) (now : Timestamp) (uid : Nat) (members : List Member)
    (r : MemberRecord) (hr : r ∈ store) (hg : r.guildId = gid)
    (hu : r.userId = uid) (h0 : uid ≠ 0)
    (huniq : ∀ x ∈ store, x.guildId = gid → x.userId = uid → x = r) :
    ((∃ m ∈ members, m.id = uid) →
      ((fixMemberData store gid now members).find?
        (fun d => d.guildId == gid && d.userId == uid)).isSome = true) ∧
    (∀ doc, (fixMemberData store gid now members).find?
        (fun d => d.guildId == gid && d.userId == uid) = some doc →
      doc.habitCount = r.habitCount ∧ doc.lastIncrement = r.lastIncrement) ∧
    ((∀ m ∈ members, m.id ≠ uid) →
      (fixMemberData store gid now members).find?
        (fun d => d.guildId == gid && d.userId == uid) = none) := by
  have hsnap := habitSnapshot_unique hr hg hu h0 huniq
  refine ⟨?_, ?_, ?_⟩
  · rintro ⟨m, hm, hid⟩
    rw [fixMemberData_find?]
    exact rebuildDocs_find?_isSome gid now _ uid _ 1 m
      ((mem_computeOrdering now).mp hm) hid
  · intro doc hdoc
    rw [fixMemberData_find?] at hdoc
    have hvals := rebuildDocs_find?_habit gid now _ uid _ 1 doc hdoc
    rw [hsnap] at hvals
    simpa using hvals
  · intro hnone
    rw [fixMemberData_find?]
    exact rebuildDocs_find?_none gid now _ uid _ 1
      (fun m hm => hnone m ((mem_computeOrdering now).mpr hm))

/-- Witness for C4: a stored member with `habit_count = 7` who is in the new
live list retains a document after the rebuild. -/
theorem fixMemberData_preserves_habit_witness :
    ((fixMemberData [⟨1, 1, "u", "U", 5, 1, false, 7, some 42, none, 0, 0⟩]
        1 100 [⟨1, "h", "H", some 5, false⟩]).find?
      (fun d => d.guildId == 1 && d.userId == 1)).isSome = true :=
  (fixMemberData_preserves_habit
    [⟨1, 1, "u", "U", 5, 1, false, 7, some 42, none, 0, 0⟩] 1 100 1
    [⟨1, "h", "H", some 5, false⟩]
    ⟨1, 1, "u", "U", 5, 1, false, 7, some 42, none, 0, 0⟩
    (by decide) rfl rfl (by decide) (by decide)).1
    ⟨⟨1, "h", "H", some 5, false⟩, by decide, rfl⟩

end TheSystem
